import Mathlib

/-!
Verification of the synchronized-index storage layer of `offline_ai_db.py`
(`MultiAIDatabase`): a SQLite-backed catalog of AI records with an FTS5
full-text index kept in sync by triggers.

The database state is embedded shallowly: the `ai_records` table is a list of
stored rows, the `ai_records_fts` index is a list of tokenized index entries,
and the AUTOINCREMENT sequence (`sqlite_sequence`) is a natural number that
only grows.  The trigger bodies of `_initialize_schema` are folded into the
insert and delete operations, exactly as SQLite fires them.  The FTS5 query
parser, the unicode61 tokenizer and the bm25 ranking function live inside the
SQLite library, not in this repository; they are modelled from the spec
(boolean keyword expressions over tokens, case-folded word tokens, a numeric
score where lower means more relevant).
-/

/-- The `AIRecord` dataclass of `offline_ai_db.py`: five required text fields,
no identity. -/
structure AIRecord where
  name : String
  provider : String
  description : String
  capabilities : String
  tags : String
deriving DecidableEq, Repr

/-- A row of the `ai_records` table: `id INTEGER PRIMARY KEY AUTOINCREMENT`,
the five text fields, and `created_at TEXT DEFAULT CURRENT_TIMESTAMP`. -/
structure StoredRow where
  id : Nat
  name : String
  provider : String
  description : String
  capabilities : String
  tags : String
  created_at : String
deriving DecidableEq, Repr

/-- A row of the `ai_records_fts` FTS5 virtual table: keyed by `rowid` (the
source row's `id`), holding the tokenized representation of the five text
fields. -/
structure FtsRow where
  rowid : Nat
  name : List String
  provider : List String
  description : List String
  capabilities : List String
  tags : List String
deriving DecidableEq, Repr

/-- The state of one open `MultiAIDatabase`: the `ai_records` table, the
`ai_records_fts` index, and the AUTOINCREMENT sequence value (the largest id
ever assigned; SQLite never decrements it). -/
structure DB where
  records : List StoredRow
  fts : List FtsRow
  seq : Nat
deriving DecidableEq, Repr

/-- A freshly created database: both tables empty, no id assigned yet. -/
def DB.empty : DB := ⟨[], [], 0⟩

/-- Modelled from the spec: the FTS5 unicode61 tokenizer used for both
indexing and querying (the spec requires the same analyzer on both sides) —
case-folded maximal runs of alphanumeric characters.  Worker on the character
list; `acc` holds the current token reversed. -/
def tokenizeGo : List Char → List Char → List String
  | [], acc => if acc.isEmpty then [] else [String.mk acc.reverse]
  | c :: cs, acc =>
    if c.isAlphanum then tokenizeGo cs (c.toLower :: acc)
    else if acc.isEmpty then tokenizeGo cs []
    else String.mk acc.reverse :: tokenizeGo cs []

/-- Modelled from the spec: tokenization of one text field. -/
def tokenize (s : String) : List String := tokenizeGo s.toList []

/-- Modelled from the spec: an FTS5 boolean keyword query — term matching and
boolean AND/OR of terms. -/
inductive FtsQuery where
  | term : String → FtsQuery
  | and : FtsQuery → FtsQuery → FtsQuery
  | or : FtsQuery → FtsQuery → FtsQuery
deriving DecidableEq, Repr

/-- The words `OR` and `AND` are boolean operators of the query language. -/
def isOpWord (w : String) : Bool := w == "OR" || w == "AND"

/-- Modelled from the spec: parse the query words after a first operand has
been read.  An operator must sit between two operands; a trailing or doubled
operator is malformed (`none`).  A bare word continues the query with the
implicit AND of FTS5. -/
def parseRest (acc : FtsQuery) : List String → Option FtsQuery
  | [] => some acc
  | [w] => if isOpWord w then none else some (.and acc (.term w))
  | w :: w2 :: ws =>
    if w == "OR" then
      if isOpWord w2 then none else parseRest (.or acc (.term w2)) ws
    else if w == "AND" then
      if isOpWord w2 then none else parseRest (.and acc (.term w2)) ws
    else parseRest (.and acc (.term w)) (w2 :: ws)

/-- Split the raw query into whitespace-separated words (case kept: the
boolean operators of FTS5 are the uppercase words); `acc` holds the current
word reversed. -/
def wordsGo : List Char → List Char → List String
  | [], acc => if acc.isEmpty then [] else [String.mk acc.reverse]
  | c :: cs, acc =>
    if c.isWhitespace then
      if acc.isEmpty then wordsGo cs [] else String.mk acc.reverse :: wordsGo cs []
    else wordsGo cs (c :: acc)

/-- The whitespace-separated words of a query string. -/
def queryWords (q : String) : List String := wordsGo q.toList []

/-- Modelled from the spec: the FTS5 query parser behind `MATCH`.  The empty
query and a query starting with an operator are malformed. -/
def parseFtsQuery (q : String) : Option FtsQuery :=
  match queryWords q with
  | [] => none
  | w :: ws => if isOpWord w then none else parseRest (.term w) ws

/-- All tokens of an index entry, over its five columns (an unqualified FTS5
query term may match in any column). -/
def FtsRow.tokens (f : FtsRow) : List String :=
  f.name ++ f.provider ++ f.description ++ f.capabilities ++ f.tags

/-- Modelled from the spec: a query term matches an index entry when each of
its tokens (the query side goes through the same tokenizer) occurs among the
entry's tokens; a term with no token matches nothing. -/
def termMatches (t : String) (f : FtsRow) : Bool :=
  let ts := tokenize t
  !ts.isEmpty && ts.all (fun tok => f.tokens.contains tok)

/-- Modelled from the spec: evaluation of a boolean keyword query against one
index entry. -/
def evalQuery : FtsQuery → FtsRow → Bool
  | .term t, f => termMatches t f
  | .and a b, f => evalQuery a f && evalQuery b f
  | .or a b, f => evalQuery a f || evalQuery b f

/-- All term tokens occurring in a query. -/
def queryTokens : FtsQuery → List String
  | .term t => tokenize t
  | .and a b => queryTokens a ++ queryTokens b
  | .or a b => queryTokens a ++ queryTokens b

/-- Modelled from the spec: the `bm25(ai_records_fts)` relevance score — a
statistical term-frequency ranking where lower means more relevant; modelled
as the negated total frequency of the query's tokens in the entry. -/
def bm25 (fq : FtsQuery) (f : FtsRow) : Int :=
  - ((queryTokens fq).foldl (fun acc t => acc + (f.tokens.count t : Int)) 0)

/-- The index entry the `ai_records_ai` trigger writes for a row: same rowid,
the five fields tokenized. -/
def rowFts (r : StoredRow) : FtsRow :=
  ⟨r.id, tokenize r.name, tokenize r.provider, tokenize r.description,
   tokenize r.capabilities, tokenize r.tags⟩

/-- The tuple `(name, provider, description, capabilities, tags)` bound to the
`INSERT INTO ai_records(...) VALUES (?, ?, ?, ?, ?)` statement. -/
def payloadOf (r : AIRecord) : String × String × String × String × String :=
  (r.name, r.provider, r.description, r.capabilities, r.tags)

/-- One execution of the shared INSERT statement at time `now`
(`created_at` defaults to `CURRENT_TIMESTAMP`): AUTOINCREMENT assigns
`seq + 1` as the new id and advances the sequence, and the `ai_records_ai`
trigger mirrors the new row into `ai_records_fts`. -/
def insertTuple (db : DB) (t : String × String × String × String × String)
    (now : String) : DB :=
  let newId := db.seq + 1
  let row : StoredRow := ⟨newId, t.1, t.2.1, t.2.2.1, t.2.2.2.1, t.2.2.2.2, now⟩
  ⟨db.records ++ [row], db.fts ++ [rowFts row], newId⟩

/-- `MultiAIDatabase.add_ai`: insert one record, commit, return
`cursor.lastrowid` (the id AUTOINCREMENT just assigned, which equals the new
sequence value). -/
def add_ai (db : DB) (r : AIRecord) (now : String) : Nat × DB :=
  let db' := insertTuple db (payloadOf r) now
  (db'.seq, db')

/-- `MultiAIDatabase.bulk_add`: build the payload list, run the same INSERT
once per tuple via `executemany`, commit once, and return `cursor.rowcount`
(the total number of rows the statement inserted). -/
def bulk_add (db : DB) (rs : List AIRecord) (now : String) : Nat × DB :=
  let payload := rs.map payloadOf
  let db' := payload.foldl (fun d t => insertTuple d t now) db
  (payload.length, db')

/-- `MultiAIDatabase.remove`: `DELETE FROM ai_records WHERE id = ?`; the
`ai_records_ad` trigger deletes the index entry keyed by each deleted row's
id; returns `cursor.rowcount > 0`. -/
def remove (db : DB) (rid : Nat) : Bool × DB :=
  let victims := db.records.filter (fun r => r.id == rid)
  (decide (0 < victims.length),
   ⟨db.records.filter (fun r => r.id != rid),
    db.fts.filter (fun f => !(victims.any (fun v => f.rowid == v.id))),
    db.seq⟩)

/-- The `ORDER BY id` ordering of `list_all`. -/
def idLe (a b : StoredRow) : Prop := a.id ≤ b.id

instance : DecidableRel idLe := fun a b => Nat.decLe a.id b.id

instance : IsTotal StoredRow idLe := ⟨fun a b => Nat.le_total a.id b.id⟩

instance : IsTrans StoredRow idLe := ⟨fun _ _ _ h h' => Nat.le_trans h h'⟩

/-- `MultiAIDatabase.list_all`: `SELECT id, name, provider, description,
capabilities, tags, created_at FROM ai_records ORDER BY id`. -/
def list_all (db : DB) : List StoredRow :=
  db.records.insertionSort idLe

/-- A row of the result set of `MultiAIDatabase.search`: `r.id, r.name,
r.provider, r.description, r.capabilities, r.tags, bm25(ai_records_fts) AS
score`. -/
structure SearchRow where
  id : Nat
  name : String
  provider : String
  description : String
  capabilities : String
  tags : String
  score : Int
deriving DecidableEq, Repr

/-- The error kinds the storage layer surfaces; a malformed `MATCH` pattern
raises the query-syntax error. -/
inductive SqlError where
  | querySyntaxError : SqlError
deriving DecidableEq, Repr

/-- `WHERE ai_records_fts MATCH ?`: the index entries the query matches. -/
def ftsMatch (fq : FtsQuery) (db : DB) : List FtsRow :=
  db.fts.filter (fun f => evalQuery fq f)

/-- `JOIN ai_records r ON r.id = f.rowid`: join each matched index entry back
to its source row and emit the result columns with the computed score. -/
def joinRecords (db : DB) (fq : FtsQuery) (fs : List FtsRow) : List SearchRow :=
  fs.filterMap (fun f =>
    (db.records.find? (fun r => r.id == f.rowid)).map (fun r =>
      ⟨r.id, r.name, r.provider, r.description, r.capabilities, r.tags,
       bm25 fq f⟩))

/-- The `ORDER BY score` ordering of `search` (ascending, so best match first
under bm25's lower-is-better convention). -/
def scoreLe (a b : SearchRow) : Prop := a.score ≤ b.score

instance : DecidableRel scoreLe := fun a b => Int.decLe a.score b.score

instance : IsTotal SearchRow scoreLe := ⟨fun a b => Int.le_total a.score b.score⟩

instance : IsTrans SearchRow scoreLe := ⟨fun _ _ _ h h' => Int.le_trans h h'⟩

/-- `ORDER BY score`: sort the joined result rows ascending by score. -/
def sortByScore (l : List SearchRow) : List SearchRow :=
  l.insertionSort scoreLe

/-- `LIMIT ?` with SQLite semantics: a negative limit means no limit,
otherwise at most `lim` rows are returned. -/
def applyLimit (lim : Int) (l : List SearchRow) : List SearchRow :=
  if lim < 0 then l else l.take lim.toNat

/-- `MultiAIDatabase.search`: parse the MATCH pattern (malformed syntax is a
query-syntax error), filter the index, join back to `ai_records`, order by
score ascending and apply the limit. -/
def search (db : DB) (q : String) (lim : Int) :
    Except SqlError (List SearchRow) :=
  match parseFtsQuery q with
  | none => .error .querySyntaxError
  | some fq => .ok (applyLimit lim (sortByScore (joinRecords db fq (ftsMatch fq db))))

/-- `search` as a state transformer: a SELECT statement reads the database and
leaves it unchanged. -/
def searchOp (db : DB) (q : String) (lim : Int) :
    Except SqlError (List SearchRow) × DB :=
  (search db q lim, db)

/-- `search` without the LIMIT clause: every match, ordered by score. -/
def searchNoLimit (db : DB) (q : String) : Except SqlError (List SearchRow) :=
  match parseFtsQuery q with
  | none => .error .querySyntaxError
  | some fq => .ok (sortByScore (joinRecords db fq (ftsMatch fq db)))

/-- The record content of a stored row (what `add_ai` copied verbatim). -/
def StoredRow.toRecord (r : StoredRow) : AIRecord :=
  ⟨r.name, r.provider, r.description, r.capabilities, r.tags⟩

/-- Database states reachable from a fresh database by the public mutating
operations (insert, insert-many, delete); `search` and `list_all` read only. -/
inductive Reachable : DB → Prop
  | init : Reachable DB.empty
  | add (db : DB) (r : AIRecord) (now : String) :
      Reachable db → Reachable (add_ai db r now).2
  | bulk (db : DB) (rs : List AIRecord) (now : String) :
      Reachable db → Reachable (bulk_add db rs now).2
  | rem (db : DB) (rid : Nat) :
      Reachable db → Reachable (remove db rid).2

/-- `ReachableFrom a b`: state `b` arises from state `a` by a (possibly
empty) sequence of public mutating operations. -/
inductive ReachableFrom : DB → DB → Prop
  | refl (db : DB) : ReachableFrom db db
  | add (db d : DB) (r : AIRecord) (now : String) :
      ReachableFrom db d → ReachableFrom db (add_ai d r now).2
  | bulk (db d : DB) (rs : List AIRecord) (now : String) :
      ReachableFrom db d → ReachableFrom db (bulk_add d rs now).2
  | rem (db d : DB) (rid : Nat) :
      ReachableFrom db d → ReachableFrom db (remove d rid).2

deriving instance DecidableEq for Except

/-!
## Sample data

Concrete states built by the public operations, used to instantiate the
theorems below (the records come from the repository's test suite).
-/

/-- The first record of the test suite. -/
def recVision : AIRecord :=
  ⟨"VisionBot", "LocalLab", "Image analysis assistant", "vision,ocr", "offline,image"⟩

/-- The second record of the test suite. -/
def recMath : AIRecord :=
  ⟨"MathAI", "EdgeCorp", "Math solver", "reasoning,algebra", "offline,math"⟩

/-- One insert into a fresh database. -/
def dbOne : DB := (add_ai DB.empty recVision "t1").2

/-- One bulk insert of two records into a fresh database. -/
def dbTwo : DB := (bulk_add DB.empty [recVision, recMath] "t0").2

/-- `dbOne` with its only row deleted again. -/
def dbDel : DB := (remove dbOne 1).2

/-- The stored row the bulk insert of `dbTwo` assigns id 2. -/
def rowMath : StoredRow :=
  ⟨2, "MathAI", "EdgeCorp", "Math solver", "reasoning,algebra", "offline,math", "t0"⟩

/-- The uniformity property the spec asks of non-positive limits: every
non-positive limit is rejected with an error, or every non-positive limit is
treated as no limit — one single behavior for all of them. -/
def nonPositiveLimitUniform : Prop :=
  (∀ (db : DB) (q : String) (lim : Int), lim ≤ 0 →
    ∃ e, search db q lim = .error e) ∨
  (∀ (db : DB) (q : String) (lim : Int), lim ≤ 0 →
    search db q lim = searchNoLimit db q)

/-!
## Invariants

`DbInv` is the inductive invariant the schema maintains: the FTS index is the
row-wise tokenized image of the table, every live id is positive and bounded
by the AUTOINCREMENT sequence, and the table is strictly ordered by id (rows
are only ever appended with a fresh larger id).
-/

/-- The inductive invariant of the storage layer. -/
def DbInv (db : DB) : Prop :=
  db.fts = db.records.map rowFts ∧
  (∀ r ∈ db.records, 1 ≤ r.id ∧ r.id ≤ db.seq) ∧
  List.Pairwise (fun a b : StoredRow => a.id < b.id) db.records

theorem DbInv_empty : DbInv DB.empty := by
  refine ⟨rfl, ?_, List.Pairwise.nil⟩
  intro r hr
  cases hr

theorem DbInv_insertTuple (db : DB) (t : String × String × String × String × String)
    (now : String) (h : DbInv db) : DbInv (insertTuple db t now) := by
  obtain ⟨hfts, hbound, hsort⟩ := h
  simp only [DbInv, insertTuple]
  refine ⟨?_, ?_, ?_⟩
  · simp [hfts, List.map_append]
  · intro r hr
    rcases List.mem_append.mp hr with hr | hr
    · obtain ⟨h1, h2⟩ := hbound r hr
      exact ⟨h1, Nat.le_trans h2 (Nat.le_succ _)⟩
    · rcases List.mem_singleton.mp hr with rfl
      exact ⟨Nat.succ_le_succ (Nat.zero_le _), Nat.le_refl _⟩
  · rw [List.pairwise_append]
    refine ⟨hsort, List.pairwise_singleton _ _, ?_⟩
    intro a ha b hb
    rcases List.mem_singleton.mp hb with rfl
    exact Nat.lt_succ_of_le (hbound a ha).2

theorem DbInv_add (db : DB) (r : AIRecord) (now : String) (h : DbInv db) :
    DbInv (add_ai db r now).2 :=
  DbInv_insertTuple db (payloadOf r) now h

theorem DbInv_foldl_insert (now : String) (ts : List (String × String × String × String × String)) :
    ∀ db : DB, DbInv db → DbInv (ts.foldl (fun d t => insertTuple d t now) db) := by
  induction ts with
  | nil => intro db h; exact h
  | cons t ts ih =>
    intro db h
    exact ih (insertTuple db t now) (DbInv_insertTuple db t now h)

theorem DbInv_bulk (db : DB) (rs : List AIRecord) (now : String) (h : DbInv db) :
    DbInv (bulk_add db rs now).2 :=
  DbInv_foldl_insert now (rs.map payloadOf) db h

theorem DbInv_remove (db : DB) (rid : Nat) (h : DbInv db) : DbInv (remove db rid).2 := by
  obtain ⟨hfts, hbound, hsort⟩ := h
  refine ⟨?_, ?_, ?_⟩
  · show db.fts.filter _ = (db.records.filter (fun r => r.id != rid)).map rowFts
    rw [hfts, List.filter_map]
    congr 1
    apply List.filter_congr
    intro r hr
    show (!((db.records.filter (fun v => v.id == rid)).any fun v => (rowFts r).rowid == v.id))
        = (r.id != rid)
    by_cases hid : r.id = rid
    · have hv : r ∈ db.records.filter (fun v => v.id == rid) :=
        List.mem_filter.mpr ⟨hr, by simp [hid]⟩
      have : (db.records.filter (fun v => v.id == rid)).any
          (fun v => (rowFts r).rowid == v.id) = true := by
        refine List.any_eq_true.mpr ⟨r, hv, ?_⟩
        simp [rowFts]
      simp [this, hid]
    · have : (db.records.filter (fun v => v.id == rid)).any
          (fun v => (rowFts r).rowid == v.id) = false := by
        refine List.any_eq_false.mpr ?_
        intro v hv
        have : v.id = rid := by
          have := (List.mem_filter.mp hv).2
          exact beq_iff_eq.mp this
        simp [rowFts, this, hid]
      simp [this, hid]
  · intro r hr
    exact hbound r (List.mem_filter.mp hr).1
  · exact List.Pairwise.sublist (List.filter_sublist _) hsort

/-- Every reachable database state satisfies the invariant. -/
theorem DbInv_of_Reachable (db : DB) (h : Reachable db) : DbInv db := by
  induction h with
  | init => exact DbInv_empty
  | add d r now _ ih => exact DbInv_add d r now ih
  | bulk d rs now _ ih => exact DbInv_bulk d rs now ih
  | rem d rid _ ih => exact DbInv_remove d rid ih

/-!
## Sequence monotonicity
-/

theorem seq_le_insertTuple (db : DB) (t : String × String × String × String × String)
    (now : String) : db.seq ≤ (insertTuple db t now).seq :=
  Nat.le_succ _

theorem seq_le_foldl_insert (now : String)
    (ts : List (String × String × String × String × String)) :
    ∀ db : DB, db.seq ≤ (ts.foldl (fun d t => insertTuple d t now) db).seq := by
  induction ts with
  | nil => intro db; exact Nat.le_refl _
  | cons t ts ih =>
    intro db
    exact Nat.le_trans (seq_le_insertTuple db t now) (ih (insertTuple db t now))

/-- The AUTOINCREMENT sequence never decreases across public operations. -/
theorem seq_mono (a b : DB) (h : ReachableFrom a b) : a.seq ≤ b.seq := by
  induction h with
  | refl => exact Nat.le_refl _
  | add d r now _ ih => exact Nat.le_trans ih (Nat.le_succ _)
  | bulk d rs now _ ih =>
    exact Nat.le_trans ih (seq_le_foldl_insert now (rs.map payloadOf) d)
  | rem d rid _ ih => exact ih

/-!
## Claim theorems
-/

/-- C4: Identity monotonicity — within one database lifetime, the ids
returned by successive inserts are strictly increasing, and an id is never
reused even after the row bearing it has been deleted (deletes are among the
operations the intermediate `ReachableFrom` chain may perform). -/
theorem inserted_ids_strictly_increasing (db1 d2 : DB) (r1 r2 : AIRecord)
    (t1 t2 : String) (h : ReachableFrom (add_ai db1 r1 t1).2 d2) :
    (add_ai db1 r1 t1).1 < (add_ai d2 r2 t2).1 := by
  have h1 : (add_ai db1 r1 t1).1 = (add_ai db1 r1 t1).2.seq := rfl
  have h2 : (add_ai d2 r2 t2).1 = d2.seq + 1 := rfl
  have h3 := seq_mono _ _ h
  omega

/-- Witness for C4: the id of an insert into a fresh database is smaller than
the id of a second insert performed after the first row was deleted. -/
theorem inserted_ids_strictly_increasing_witness :
    (add_ai DB.empty recVision "t1").1 <
      (add_ai (remove (add_ai DB.empty recVision "t1").2 1).2 recMath "t2").1 :=
  inserted_ids_strictly_increasing DB.empty _ recVision recMath "t1" "t2"
    (ReachableFrom.rem _ _ 1 (ReachableFrom.refl _))

/-- C5: Round-trip — after inserting a record, `list_all` contains a stored
row whose five text fields are character-for-character the inserted record's
fields, whose id is the returned id and whose timestamp is the insertion
time. -/
theorem insert_then_list_roundtrip (db : DB) (r : AIRecord) (now : String) :
    ∃ row ∈ list_all (add_ai db r now).2,
      row.id = (add_ai db r now).1 ∧ row.name = r.name ∧
      row.provider = r.provider ∧ row.description = r.description ∧
      row.capabilities = r.capabilities ∧ row.tags = r.tags ∧
      row.created_at = now := by
  refine ⟨⟨db.seq + 1, r.name, r.provider, r.description, r.capabilities,
    r.tags, now⟩, ?_, rfl, rfl, rfl, rfl, rfl, rfl, rfl⟩
  apply (List.mem_insertionSort idLe).mpr
  show _ ∈ db.records ++ [_]
  exact List.mem_append_right _ (List.mem_singleton.mpr rfl)

/-- C6: `remove` returns true exactly when a row with the id was present, and
removing the same id a second time returns false. -/
theorem remove_reports_presence (db : DB) (rid : Nat) :
    ((remove db rid).1 = true ↔ ∃ r ∈ db.records, r.id = rid) ∧
    (remove (remove db rid).2 rid).1 = false := by
  constructor
  · simp only [remove, decide_eq_true_iff]
    constructor
    · intro h
      obtain ⟨r, hr⟩ := List.length_pos_iff_exists_mem.mp h
      obtain ⟨hmem, hid⟩ := List.mem_filter.mp hr
      exact ⟨r, hmem, beq_iff_eq.mp hid⟩
    · rintro ⟨r, hmem, rfl⟩
      apply List.length_pos_iff_exists_mem.mpr
      exact ⟨r, List.mem_filter.mpr ⟨hmem, beq_self_eq_true _⟩⟩
  · have hnil : (db.records.filter (fun r => r.id != rid)).filter
        (fun r => r.id == rid) = [] := by
      apply List.filter_eq_nil_iff.mpr
      intro r hr
      have h1 := (List.mem_filter.mp hr).2
      simp only [bne_iff_ne, ne_eq] at h1
      simp [h1]
    show decide (0 < ((db.records.filter (fun r => r.id != rid)).filter
        (fun r => r.id == rid)).length) = false
    rw [hnil]
    rfl

/-- C10: frame property of `remove` — rows and index entries whose id differs
from the removed one survive the call untouched (fields and timestamp
included, since the row value itself is preserved), nothing new appears, and
the id sequence is unchanged. -/
theorem remove_frame (db : DB) (rid : Nat) :
    (∀ r ∈ db.records, r.id ≠ rid → r ∈ (remove db rid).2.records) ∧
    (∀ r ∈ (remove db rid).2.records, r ∈ db.records ∧ r.id ≠ rid) ∧
    (∀ f ∈ db.fts, f.rowid ≠ rid → f ∈ (remove db rid).2.fts) ∧
    (∀ f ∈ (remove db rid).2.fts, f ∈ db.fts) ∧
    (remove db rid).2.seq = db.seq := by
  refine ⟨?_, ?_, ?_, ?_, rfl⟩
  · intro r hr hne
    exact List.mem_filter.mpr ⟨hr, by simp [hne]⟩
  · intro r hr
    obtain ⟨h1, h2⟩ := List.mem_filter.mp hr
    refine ⟨h1, ?_⟩
    simpa using h2
  · intro f hf hne
    refine List.mem_filter.mpr ⟨hf, ?_⟩
    simp only [Bool.not_eq_eq_eq_not, Bool.not_true]
    apply List.any_eq_false.mpr
    intro v hv
    have hvid : v.id = rid := by
      have := (List.mem_filter.mp hv).2
      exact beq_iff_eq.mp this
    simp [hvid, hne]
  · intro f hf
    exact (List.mem_filter.mp hf).1

/-- Witness for C10: deleting id 1 from the two-row database keeps the row
with id 2 and leaves the sequence untouched. -/
theorem remove_frame_witness :
    rowMath ∈ (remove dbTwo 1).2.records ∧ (remove dbTwo 1).2.seq = dbTwo.seq :=
  ⟨(remove_frame dbTwo 1).1 rowMath (by decide) (by decide),
   (remove_frame dbTwo 1).2.2.2.2⟩

/-- C1: index consistency invariant — in every reachable state, the index
entries' rowids are exactly the live row ids, every index entry holds the
tokenized current field values of its source row, and after a delete a query
matching none of the remaining index entries (in particular one matching only
the just-deleted record's content) returns the empty sequence. -/
theorem index_consistency (db : DB) (h : Reachable db) :
    (∀ i : Nat, (∃ r ∈ db.records, r.id = i) ↔ ∃ f ∈ db.fts, f.rowid = i) ∧
    (∀ f ∈ db.fts, ∃ r ∈ db.records, r.id = f.rowid ∧ f = rowFts r) ∧
    (∀ (q : String) (fq : FtsQuery) (lim : Int), parseFtsQuery q = some fq →
      (∀ f ∈ db.fts, evalQuery fq f = false) →
      search db q lim = .ok []) := by
  obtain ⟨hfts, -, -⟩ := DbInv_of_Reachable db h
  refine ⟨?_, ?_, ?_⟩
  · intro i
    constructor
    · rintro ⟨r, hr, rfl⟩
      exact ⟨rowFts r, hfts ▸ List.mem_map_of_mem rowFts hr, rfl⟩
    · rintro ⟨f, hf, rfl⟩
      rw [hfts] at hf
      obtain ⟨r, hr, rfl⟩ := List.mem_map.mp hf
      exact ⟨r, hr, rfl⟩
  · intro f hf
    rw [hfts] at hf
    obtain ⟨r, hr, rfl⟩ := List.mem_map.mp hf
    exact ⟨r, hr, rfl, rfl⟩
  · intro q fq lim hq hnone
    have hmatch : ftsMatch fq db = [] := by
      apply List.filter_eq_nil_iff.mpr
      intro f hf
      simp [hnone f hf]
    simp [search, hq, hmatch, joinRecords, sortByScore, applyLimit]

/-- Witness for C1: after inserting a record and deleting it again, a search
for its unique term returns the empty sequence. -/
theorem index_consistency_witness :
    search dbDel "visionbot" 20 = Except.ok [] :=
  (index_consistency dbDel
      (Reachable.rem (add_ai DB.empty recVision "t1").2 1
        (Reachable.add DB.empty recVision "t1" Reachable.init))).2.2
    "visionbot" (FtsQuery.term "visionbot") 20 rfl (by decide)

/-- C9: `list_all` returns exactly the live rows, ordered by strictly
ascending id (which is insertion order), without truncation. -/
theorem list_all_sorted_complete (db : DB) (h : Reachable db) :
    list_all db = db.records ∧
    List.Pairwise (fun a b : StoredRow => a.id < b.id) (list_all db) := by
  obtain ⟨-, -, hsort⟩ := DbInv_of_Reachable db h
  have hs : List.Sorted idLe db.records :=
    hsort.imp (fun hab => Nat.le_of_lt hab)
  have heq : list_all db = db.records := List.Sorted.insertionSort_eq hs
  exact ⟨heq, heq ▸ hsort⟩

/-- Witness for C9: on the two-row database the listing is the table itself,
in strictly increasing id order. -/
theorem list_all_sorted_complete_witness :
    list_all dbTwo = dbTwo.records ∧
    List.Pairwise (fun a b : StoredRow => a.id < b.id) (list_all dbTwo) :=
  list_all_sorted_complete dbTwo
    (Reachable.bulk DB.empty [recVision, recMath] "t0" Reachable.init)

/-- Helper for C3: folding the shared INSERT over a record list appends, in
order, one stored row per input record, carrying that record's fields. -/
theorem bulk_records_append (now : String) (rs : List AIRecord) :
    ∀ db : DB, ∃ newRows : List StoredRow,
      (bulk_add db rs now).2.records = db.records ++ newRows ∧
      newRows.map StoredRow.toRecord = rs := by
  induction rs with
  | nil => exact fun db => ⟨[], by simp [bulk_add], rfl⟩
  | cons r rs ih =>
    intro db
    obtain ⟨nr, h1, h2⟩ := ih (insertTuple db (payloadOf r) now)
    refine ⟨⟨db.seq + 1, r.name, r.provider, r.description, r.capabilities,
      r.tags, now⟩ :: nr, ?_, ?_⟩
    · have hstep : (bulk_add db (r :: rs) now).2
          = (bulk_add (insertTuple db (payloadOf r) now) rs now).2 := by
        simp [bulk_add, List.foldl_cons]
      rw [hstep, h1]
      show (db.records ++ [_]) ++ nr = _
      rw [List.append_assoc]
      rfl
    · show StoredRow.toRecord _ :: nr.map StoredRow.toRecord = r :: rs
      rw [h2]
      rfl

/-- C3: `bulk_add` is the repeated single insert performed in one unit of
work: it returns the input length as the inserted count, its final state is
the fold of `add_ai` over the inputs, and the table afterwards is the old
table plus exactly one new row per input record, carrying its fields. -/
theorem bulk_add_all_or_nothing (db : DB) (rs : List AIRecord) (now : String) :
    (bulk_add db rs now).1 = rs.length ∧
    (bulk_add db rs now).2 = rs.foldl (fun d r => (add_ai d r now).2) db ∧
    ∃ newRows : List StoredRow,
      (bulk_add db rs now).2.records = db.records ++ newRows ∧
      newRows.map StoredRow.toRecord = rs := by
  refine ⟨?_, ?_, bulk_records_append now rs db⟩
  · show (rs.map payloadOf).length = rs.length
    exact List.length_map _ _
  · show (rs.map payloadOf).foldl (fun d t => insertTuple d t now) db = _
    rw [List.foldl_map]
    rfl

/-- C2: the search contract — for a well-formed query, `search` returns (not
raises) a sequence of at most `limit` entries ordered ascending by score,
each entry carrying all fields of a stored record matched through its index
entry plus the computed score; with no match the sequence is empty. -/
theorem search_contract (db : DB) (q : String) (lim : Int) (fq : FtsQuery)
    (hq : parseFtsQuery q = some fq) :
    ∃ res : List SearchRow, search db q lim = .ok res ∧
      (0 ≤ lim → res.length ≤ lim.toNat) ∧
      List.Pairwise scoreLe res ∧
      (∀ e ∈ res, ∃ r ∈ db.records,
        e.id = r.id ∧ e.name = r.name ∧ e.provider = r.provider ∧
        e.description = r.description ∧ e.capabilities = r.capabilities ∧
        e.tags = r.tags ∧
        ∃ f ∈ db.fts, f.rowid = r.id ∧ evalQuery fq f = true ∧
          e.score = bm25 fq f) ∧
      ((∀ f ∈ db.fts, evalQuery fq f = false) → res = []) := by
  refine ⟨applyLimit lim (sortByScore (joinRecords db fq (ftsMatch fq db))),
    ?_, ?_, ?_, ?_, ?_⟩
  · simp [search, hq]
  · intro hlim
    simp only [applyLimit, if_neg (not_lt.mpr hlim)]
    exact List.length_take_le _ _
  · have hs : List.Pairwise scoreLe
        (sortByScore (joinRecords db fq (ftsMatch fq db))) :=
      List.sorted_insertionSort scoreLe _
    by_cases hneg : lim < 0
    · simpa [applyLimit, hneg] using hs
    · simp only [applyLimit, if_neg hneg]
      exact List.Pairwise.sublist (List.take_sublist _ _) hs
  · intro e he
    have h1 : e ∈ sortByScore (joinRecords db fq (ftsMatch fq db)) := by
      by_cases hneg : lim < 0
      · simpa [applyLimit, hneg] using he
      · simp only [applyLimit, if_neg hneg] at he
        exact List.mem_of_mem_take he
    have h2 : e ∈ joinRecords db fq (ftsMatch fq db) :=
      (List.mem_insertionSort scoreLe).mp h1
    obtain ⟨f, hfmem, hmap⟩ := List.mem_filterMap.mp h2
    obtain ⟨hfin, heval⟩ := List.mem_filter.mp hfmem
    obtain ⟨r, hfind, hrE⟩ := Option.map_eq_some'.mp hmap
    have hrmem := List.mem_of_find?_eq_some hfind
    have hbeq := List.find?_some hfind
    have hrid : r.id = f.rowid := beq_iff_eq.mp hbeq
    subst hrE
    exact ⟨r, hrmem, rfl, rfl, rfl, rfl, rfl, rfl, f, hfin, hrid.symm,
      heval, rfl⟩
  · intro hnone
    have hmatch : ftsMatch fq db = [] := by
      apply List.filter_eq_nil_iff.mpr
      intro f hf
      simp [hnone f hf]
    simp [hmatch, joinRecords, sortByScore, applyLimit]

/-- Witness for C2: the search contract instantiated on the one-row database
with the query for its name and the default limit 20. -/
theorem search_contract_witness :
    ∃ res : List SearchRow, search dbOne "visionbot" 20 = .ok res ∧
      (0 ≤ (20 : Int) → res.length ≤ (20 : Int).toNat) ∧
      List.Pairwise scoreLe res ∧
      (∀ e ∈ res, ∃ r ∈ dbOne.records,
        e.id = r.id ∧ e.name = r.name ∧ e.provider = r.provider ∧
        e.description = r.description ∧ e.capabilities = r.capabilities ∧
        e.tags = r.tags ∧
        ∃ f ∈ dbOne.fts, f.rowid = r.id ∧
          evalQuery (FtsQuery.term "visionbot") f = true ∧
          e.score = bm25 (FtsQuery.term "visionbot") f) ∧
      ((∀ f ∈ dbOne.fts, evalQuery (FtsQuery.term "visionbot") f = false) →
        res = []) :=
  search_contract dbOne "visionbot" 20 (FtsQuery.term "visionbot") rfl

/-- C7 counterexample: the code does not handle non-positive limits
uniformly — a negative limit behaves as "no limit" and is not an error, while
limit zero returns the empty sequence even though matches exist, which is
neither an error nor "no limit". -/
theorem nonpositive_limit_not_uniform : ¬ nonPositiveLimitUniform := by
  rintro (h | h)
  · obtain ⟨e, he⟩ := h dbOne "visionbot" (-1) (by decide)
    cases e
    exact absurd he (by decide)
  · exact absurd (h dbOne "visionbot" 0 (by decide)) (by decide)

/-- C7 amended: a negative limit is treated as no limit; a limit of zero
returns the empty sequence for every well-formed query; so the two
non-positive regimes behave differently. -/
theorem search_nonpositive_limit (db : DB) (q : String) (lim : Int)
    (hneg : lim < 0) :
    search db q lim = searchNoLimit db q ∧
    (∀ fq : FtsQuery, parseFtsQuery q = some fq →
      search db q 0 = .ok []) := by
  constructor
  · unfold search searchNoLimit
    cases hp : parseFtsQuery q with
    | none => rfl
    | some fq => simp [applyLimit, hneg]
  · intro fq hfq
    simp [search, hfq, applyLimit]

/-- Witness for C7's amended claim on the one-row database: limit `-1`
behaves as no limit and limit `0` returns the empty sequence. -/
theorem search_nonpositive_limit_witness :
    search dbOne "visionbot" (-1) = searchNoLimit dbOne "visionbot" ∧
      search dbOne "visionbot" 0 = Except.ok [] :=
  ⟨(search_nonpositive_limit dbOne "visionbot" (-1) (by decide)).1,
   (search_nonpositive_limit dbOne "visionbot" (-1) (by decide)).2
     (FtsQuery.term "visionbot") rfl⟩

/-- C8: a malformed query makes `search` fail with the query-syntax error
instead of returning an empty result, and the stored data is unchanged. -/
theorem malformed_query_reports_error (db : DB) (q : String) (lim : Int)
    (h : parseFtsQuery q = none) :
    (searchOp db q lim).1 = .error .querySyntaxError ∧
    (searchOp db q lim).2 = db := by
  constructor
  · show search db q lim = _
    simp [search, h]
  · rfl

/-- Witness for C8: the unbalanced query of the spec's example errors on the
one-row database and leaves it unchanged. -/
theorem malformed_query_reports_error_witness :
    (searchOp dbOne "coding OR" 5).1 = Except.error SqlError.querySyntaxError ∧
      (searchOp dbOne "coding OR" 5).2 = dbOne :=
  malformed_query_reports_error dbOne "coding OR" 5 (by decide)
